import Mathlib

/-!
Verification of the josiepy numerical scheme engine: Euler flux law,
Rusanov numerical flux rule, CFL step computation and the Runge-Kutta
stage evaluation of the DG advection test.

Arrays in the source are vectorized per cell; all the operations under
study act pointwise per cell, so the embedding works with the state of a
single cell.  Real number arithmetic is embedded in `ℚ` (the source
formulas use only `+ - * / abs max`, no transcendental functions), which
keeps every definition executable.
-/

namespace Josie

/-- A 2D face normal vector, one row of the `neighs.normals` array. -/
@[ext]
structure Normal where
  x : ℚ
  y : ℚ
deriving DecidableEq

/-- Negated normal, for the antisymmetry property. -/
def Normal.neg (n : Normal) : Normal := ⟨-n.x, -n.y⟩

/-- Per-cell Euler state `Q`.  The docstrings in
`src/josie/solver/euler/problem.py` give the state dimension
`[Nx * Ny * 9]`; the comment in `src/josie/euler/schemes/rusanov.py`
line 127 says the first four variables are the conservative ones
`(rho, rhoU, rhoV, rhoE)`, and `problem.py` accesses the named fields
`rhoU, rhoV, rhoE, U, V, p, c`; the remaining field is the internal
energy `rhoe`. -/
@[ext]
structure EulerQ where
  rho : ℚ
  rhoU : ℚ
  rhoV : ℚ
  rhoE : ℚ
  rhoe : ℚ
  U : ℚ
  V : ℚ
  p : ℚ
  c : ℚ
deriving DecidableEq

/-- Componentwise negation of a state (for flux antisymmetry). -/
def EulerQ.neg (q : EulerQ) : EulerQ :=
  ⟨-q.rho, -q.rhoU, -q.rhoV, -q.rhoE, -q.rhoe, -q.U, -q.V, -q.p, -q.c⟩

/-- The all-zero state, `np.zeros_like(Q_L)`. -/
def EulerQ.zeros : EulerQ := ⟨0, 0, 0, 0, 0, 0, 0, 0, 0⟩

/-- The conservative sub-range `(rho, rhoU, rhoV, rhoE)` of a state. -/
@[ext]
structure ConsQ where
  rho : ℚ
  rhoU : ℚ
  rhoV : ℚ
  rhoE : ℚ
deriving DecidableEq

/-- Index the conservative sub-range by position, as the numpy array is. -/
def ConsQ.idx (v : ConsQ) : Fin 4 → ℚ := ![v.rho, v.rhoU, v.rhoV, v.rhoE]

/-- Modelled from the spec: `Q.get_conservative` lives in
`josie/euler/state.py`, which is absent from the sources; spec §3 and the
comment at `rusanov.py` line 127 say the conservative subset is the
statically-known contiguous sub-range `(rho, rhoU, rhoV, rhoE)`,
retrievable without touching the other fields. -/
def EulerQ.get_conservative (q : EulerQ) : ConsQ := ⟨q.rho, q.rhoU, q.rhoV, q.rhoE⟩

/-- Modelled from the spec: `Q.set_conservative` lives in
`josie/euler/state.py`, which is absent from the sources; spec §4.1 says
the conservative sub-range is settable without affecting the remaining
fields of the state. -/
def EulerQ.set_conservative (q : EulerQ) (v : ConsQ) : EulerQ :=
  { q with rho := v.rho, rhoU := v.rhoU, rhoV := v.rhoV, rhoE := v.rhoE }

/-- The Euler physical flux tensor of one cell, from `flux` in
`src/josie/solver/euler/problem.py` lines 131-157: a `4 × 2` tensor
assembled from the fields `rhoU, rhoV, rhoE, U, V, p` and the products
`rhoUU = rhoU*U`, `rhoUV = rhoU*V`, `rhoVV = rhoV*V`, `rhoVU = rhoV*U`. -/
def flux (q : EulerQ) : Fin 4 → Fin 2 → ℚ :=
  ![![q.rhoU, q.rhoV],
    ![q.rhoU * q.U + q.p, q.rhoU * q.V],
    ![q.rhoV * q.U, q.rhoV * q.V + q.p],
    ![(q.rhoE + q.p) * q.U, (q.rhoE + q.p) * q.V]]

/-- The flux tensor contracted with a face normal,
`np.einsum("...kl,...l->...k", F, normals)`. -/
def fluxDotN (q : EulerQ) (n : Normal) (k : Fin 4) : ℚ :=
  flux q k 0 * n.x + flux q k 1 * n.y

/-- Per-cell eigenvalue record, `EigState` with fields `UPLUS, UMINUS`
(`src/josie/solver/euler/problem.py` lines 89-91). -/
@[ext]
structure EigState where
  UPLUS : ℚ
  UMINUS : ℚ
deriving DecidableEq

/-- `eigs` from `src/josie/solver/euler/problem.py` lines 32-93: project
the velocity on the face normal, then return `(U + c, U - c)`; the plain
eigenvalue `u` is neglected (line 85). -/
def eigs (q : EulerQ) (n : Normal) : EigState :=
  ⟨(q.U * n.x + q.V * n.y) + q.c, (q.U * n.x + q.V * n.y) - q.c⟩

/-- Modelled from the spec: `EulerScheme.compute_U_norm` lives in
`josie/euler/schemes/scheme.py`, which is absent from the sources; spec
§4.2 step 1 says "Project velocity onto the face normal for both sides:
U_n = velocity · normal". -/
def compute_U_norm (q : EulerQ) (n : Normal) : ℚ := q.U * n.x + q.V * n.y

/-- `Rusanov.compute_sigma` from `src/josie/euler/schemes/rusanov.py`
lines 55-101: `sigma_L = |U_L| + c_L`, `sigma_R = |U_R| + c_R`,
concatenated on the last axis and reduced with `np.max`, which per cell
is the binary maximum. -/
def compute_sigma (U_L U_R c_L c_R : ℚ) : ℚ :=
  max (|U_L| + c_L) (|U_R| + c_R)

/-- The `sigma` value computed inside `Rusanov.F`
(`rusanov.py` lines 113-120). -/
def sigmaOf (qL qR : EulerQ) (n : Normal) : ℚ :=
  compute_sigma (compute_U_norm qL n) (compute_U_norm qR n) qL.c qR.c

/-- The `DeltaF` value of `Rusanov.F` (`rusanov.py` lines 122-125):
`0.5 * (F(cells) + F(neighs))` contracted with the normal. -/
def centralFlux (qL qR : EulerQ) (n : Normal) (k : Fin 4) : ℚ :=
  0.5 * (flux qL k 0 + flux qR k 0) * n.x + 0.5 * (flux qL k 1 + flux qR k 1) * n.y

/-- One conservative component of the face flux of `Rusanov.F`
(`rusanov.py` lines 129-136): `surfaces * (DeltaF - DeltaQ)` with
`DeltaQ = 0.5 * sigma * (Q_R_cons - Q_L_cons)`. -/
def faceFlux (qL qR : EulerQ) (n : Normal) (S : ℚ) (k : Fin 4) : ℚ :=
  S * (centralFlux qL qR n k
    - 0.5 * sigmaOf qL qR n * (qR.get_conservative.idx k - qL.get_conservative.idx k))

/-- `Rusanov.F` from `src/josie/euler/schemes/rusanov.py` lines 103-138:
the output state is zero-initialized and only its conservative sub-range
is written, with the face flux components. -/
def rusanovF (qL qR : EulerQ) (n : Normal) (S : ℚ) : EulerQ :=
  EulerQ.zeros.set_conservative
    ⟨faceFlux qL qR n S 0, faceFlux qL qR n S 1, faceFlux qL qR n S 2, faceFlux qL qR n S 3⟩

/-- Minimum of a list of cell surfaces, `np.min(cells.surfaces)` (the
mesh guarantees a nonempty cell set; on `[]` we return `0`). -/
def minSurface : List ℚ → ℚ
  | [] => 0
  | [x] => x
  | x :: y :: xs => min x (minSurface (y :: xs))

/-- `Upwind.CFL` from `src/tests/advection/one/test_advectionDG.py`
lines 254-261: `U_abs = np.linalg.norm(V)` is the (uniform) advection
wave speed, `dx = np.min(cells.surfaces)`, result
`CFL_value * dx / U_abs`. -/
def CFL (surfaces : List ℚ) (U_abs CFL_value : ℚ) : ℚ :=
  CFL_value * minSurface surfaces / U_abs

/-- IEEE-style value of a Python float for the CFL computation: a finite
rational, a signed infinity, or NaN.  Signed zero is collapsed to `+0`,
which is the sign the source can produce here (`cfl * dx` with
non-negative inputs). -/
inductive FP where
  | fin (q : ℚ)
  | pinf
  | ninf
  | nan
deriving DecidableEq

/-- Whether a float value is an ordinary finite number. -/
def FP.finite : FP → Bool
  | .fin _ => true
  | _ => false

/-- IEEE multiplication on the float model. -/
def fpMul : FP → FP → FP
  | .nan, _ => .nan
  | _, .nan => .nan
  | .fin a, .fin b => .fin (a * b)
  | .fin a, .pinf => if a = 0 then .nan else if 0 < a then .pinf else .ninf
  | .fin a, .ninf => if a = 0 then .nan else if 0 < a then .ninf else .pinf
  | .pinf, .fin b => if b = 0 then .nan else if 0 < b then .pinf else .ninf
  | .ninf, .fin b => if b = 0 then .nan else if 0 < b then .ninf else .pinf
  | .pinf, .pinf => .pinf
  | .pinf, .ninf => .ninf
  | .ninf, .pinf => .ninf
  | .ninf, .ninf => .pinf

/-- IEEE division on the float model (zero treated as `+0`). -/
def fpDiv : FP → FP → FP
  | .nan, _ => .nan
  | _, .nan => .nan
  | .fin a, .fin b =>
    if b = 0 then (if a = 0 then .nan else if 0 < a then .pinf else .ninf)
    else .fin (a / b)
  | .fin _, .pinf => .fin 0
  | .fin _, .ninf => .fin 0
  | .pinf, .fin b => if 0 ≤ b then .pinf else .ninf
  | .ninf, .fin b => if 0 ≤ b then .ninf else .pinf
  | .pinf, .pinf => .nan
  | .pinf, .ninf => .nan
  | .ninf, .pinf => .nan
  | .ninf, .ninf => .nan

/-- `Upwind.CFL` evaluated in float semantics:
`CFL_value * dx / U_abs`, left to right as Python evaluates it. -/
def CFLfloat (CFL_value dx U_abs : FP) : FP :=
  fpDiv (fpMul CFL_value dx) U_abs

/-- Modelled from the spec: the array `self.butcher.a_s` stored by the
`ButcherTableau` constructor (`josie/general/schemes/time/rk.py` is
absent from the sources) must hold one row per stage, the stage-0 row of
zeros included — spec §3 says the row count matches the `b` length minus
bookkeeping, and the visible `c = self.butcher.c_s[step]`
(`test_advectionDG.py` line 63) is executed at `step = 1`, so the stored
stage arrays have one entry per stage.  For the two-stage tableaux the
sources construct (`RKDG2Alpha(alpha)`), the stored array is
`[0, alpha]`. -/
def butcher_a_s (alpha : ℚ) : List ℚ := [0, alpha]

/-- The coefficient slice `a_s = self.butcher.a_s[step : 2 * step + 1]`
taken by `RKDG.k` (`src/tests/advection/one/test_advectionDG.py`
line 64), out-of-range indices clipped as numpy clips them. -/
def rkdg_a_slice (a_s : List ℚ) (step : ℕ) : List ℚ :=
  (a_s.drop step).take (step + 1)

/-- The per-cell trial state built by `RKDG.k`
(`test_advectionDG.py` lines 67-68):
`step_cells.values -= dt * np.einsum("...i,...j->...", a_s, ks[..., :step])`,
with `a_s` the slice of the stored tableau array and `ks` the stored
lower-stage residuals.  The einsum `"...i,...j->..."` sums over the
indices `i` and `j` independently, so its per-cell value is
`(sum of the coefficient slice) * (sum of the stored residuals)`. -/
def rkdg_trial (base dt : ℚ) (a_s ks : List ℚ) (step : ℕ) : ℚ :=
  base - dt * ((rkdg_a_slice a_s step).sum * (ks.take step).sum)

/-- The per-cell state of the recursion `RKDG.k` after a stage: the
stored `_ks` entries, the `_fluxes` residual of the highest stage, and a
count of how many residual accumulations were performed. -/
structure KState where
  ks : List ℚ
  fluxes : ℚ
  evals : ℕ
deriving DecidableEq

/-- Per-cell model of the recursion `RKDG.k`
(`test_advectionDG.py` lines 52-89): for `step > 0` it first runs itself
at `step - 1`, stores that stage's `_fluxes` into `_ks` and resets the
accumulator; it then builds the trial state and accumulates the residual
there (`resid` packages ghost refresh plus face-flux accumulation as a
function of the trial state).  Each recursive call happens once, so
`evals` counts one residual evaluation per stage. -/
def rkdgK (resid : ℚ → ℚ) (base dt : ℚ) (a_s : List ℚ) : ℕ → KState
  | 0 => ⟨[], resid (rkdg_trial base dt a_s [] 0), 1⟩
  | step + 1 =>
    let prev := rkdgK resid base dt a_s step
    let ks := prev.ks ++ [prev.fluxes]
    ⟨ks, resid (rkdg_trial base dt a_s ks (step + 1)), prev.evals + 1⟩

/-- Modelled from the spec: the stage rule of the Runge-Kutta base class
(`josie/general/schemes/time/rk.py` is absent from the sources); spec
§4.5 says the trial state for stage `k` is
`base state − Δt · Σ_{j<k} a[k,j] · residual[j]`,
with `aRow` the row `a[k, ·]` of the Butcher tableau. -/
def rk_spec_trial (base dt : ℚ) (aRow ks : List ℚ) (k : ℕ) : ℚ :=
  base - dt * (List.zipWith (fun a r => a * r) aRow (ks.take k)).sum

/-! ### Helper lemmas -/

lemma compute_U_norm_neg (q : EulerQ) (n : Normal) :
    compute_U_norm q (Normal.neg n) = -(compute_U_norm q n) := by
  simp [compute_U_norm, Normal.neg]; ring

lemma compute_sigma_swap (a b c d : ℚ) : compute_sigma b a d c = compute_sigma a b c d :=
  max_comm _ _

lemma compute_sigma_neg (a b c d : ℚ) :
    compute_sigma (-a) (-b) c d = compute_sigma a b c d := by
  simp [compute_sigma, abs_neg]

lemma sigmaOf_swap_neg (qL qR : EulerQ) (n : Normal) :
    sigmaOf qR qL (Normal.neg n) = sigmaOf qL qR n := by
  rw [sigmaOf, compute_U_norm_neg, compute_U_norm_neg, compute_sigma_neg,
    compute_sigma_swap, sigmaOf]

lemma centralFlux_swap_neg (qL qR : EulerQ) (n : Normal) (k : Fin 4) :
    centralFlux qR qL (Normal.neg n) k = -(centralFlux qL qR n k) := by
  simp only [centralFlux, Normal.neg]; ring

lemma faceFlux_swap_neg (qL qR : EulerQ) (n : Normal) (S : ℚ) (k : Fin 4) :
    faceFlux qR qL (Normal.neg n) S k = -(faceFlux qL qR n S k) := by
  rw [faceFlux, faceFlux, sigmaOf_swap_neg, centralFlux_swap_neg]; ring

lemma rusanovF_cons_idx (qL qR : EulerQ) (n : Normal) (S : ℚ) (k : Fin 4) :
    (rusanovF qL qR n S).get_conservative.idx k = faceFlux qL qR n S k := by
  fin_cases k <;> rfl

/-! ### Claim theorems -/

/-- C1: for every pair of left/right cell states at a face, with the face
normal and face surface length, every component of the conservative
sub-range of the state returned by the Rusanov flux rule `F` equals
`(0.5·(F(left) + F(right))·normal − 0.5·σ·(Q_R,cons − Q_L,cons)) · surface`,
with `F` the physical flux tensor contracted with the normal and `σ` the
wave-speed bound from `compute_sigma`. -/
theorem rusanov_flux_conservative_formula (qL qR : EulerQ) (n : Normal) (S : ℚ) (k : Fin 4) :
    (rusanovF qL qR n S).get_conservative.idx k =
      (0.5 * (fluxDotN qL n k + fluxDotN qR n k)
        - 0.5 * compute_sigma (compute_U_norm qL n) (compute_U_norm qR n) qL.c qR.c
            * (qR.get_conservative.idx k - qL.get_conservative.idx k)) * S := by
  rw [rusanovF_cons_idx]
  simp only [faceFlux, centralFlux, sigmaOf, fluxDotN]
  ring

/-- C2: the Rusanov flux computed with `(left, right, normal)` equals the
negation of the flux computed with `(right, left, −normal)`: exact flux
antisymmetry across a shared face. -/
theorem rusanov_flux_antisymm (qL qR : EulerQ) (n : Normal) (S : ℚ) :
    rusanovF qL qR n S = EulerQ.neg (rusanovF qR qL (Normal.neg n) S) := by
  ext <;>
    simp [rusanovF, EulerQ.neg, EulerQ.set_conservative, EulerQ.zeros, faceFlux_swap_neg]

/-- C3: `compute_sigma` returns, per cell, exactly
`max(|U_L| + c_L, |U_R| + c_R)`, and with identical left and right
arguments it returns `|U| + c` exactly. -/
theorem compute_sigma_max_bound (U_L U_R c_L c_R U c : ℚ) :
    compute_sigma U_L U_R c_L c_R = max (|U_L| + c_L) (|U_R| + c_R) ∧
    compute_sigma U U c c = |U| + c :=
  ⟨rfl, max_self _⟩

/-- C4: on a state whose momentum fields are consistent with the velocity
fields (`rhoU = ρ·u`, `rhoV = ρ·v`), the Euler flux function returns per
cell the `4 × 2` tensor
`[[ρu, ρv], [ρu²+p, ρuv], [ρvu, ρv²+p], [(ρE+p)u, (ρE+p)v]]`. -/
theorem flux_euler_tensor (q : EulerQ) (hU : q.rhoU = q.rho * q.U) (hV : q.rhoV = q.rho * q.V) :
    flux q = ![![q.rho * q.U, q.rho * q.V],
               ![q.rho * q.U * q.U + q.p, q.rho * q.U * q.V],
               ![q.rho * q.V * q.U, q.rho * q.V * q.V + q.p],
               ![(q.rhoE + q.p) * q.U, (q.rhoE + q.p) * q.V]] := by
  funext k l
  fin_cases k <;> fin_cases l <;> simp [flux, hU, hV]

/-- Witness for C4 at a concrete consistent state. -/
theorem flux_euler_tensor_witness :
    flux ⟨1, 3, 5, 7, 0, 3, 5, 11, 2⟩ =
      ![![(1:ℚ) * 3, 1 * 5],
        ![1 * 3 * 3 + 11, 1 * 3 * 5],
        ![1 * 5 * 3, 1 * 5 * 5 + 11],
        ![(7 + 11) * 3, (7 + 11) * 5]] :=
  flux_euler_tensor ⟨1, 3, 5, 7, 0, 3, 5, 11, 2⟩ (one_mul (3:ℚ)).symm (one_mul (5:ℚ)).symm

/-- C5: the eigenvalue function returns exactly the pair
`(U_n + c, U_n − c)` of the velocity projected on the face normal: `u ± c`
for an x-facing normal, `v ± c` for a y-facing normal, and nothing else —
the eigenvalue `u` alone is not among the returned values. -/
theorem eigs_plus_minus (q : EulerQ) (n : Normal) :
    eigs q n = ⟨q.U * n.x + q.V * n.y + q.c, q.U * n.x + q.V * n.y - q.c⟩ ∧
    eigs q ⟨1, 0⟩ = ⟨q.U + q.c, q.U - q.c⟩ ∧
    eigs q ⟨0, 1⟩ = ⟨q.V + q.c, q.V - q.c⟩ := by
  refine ⟨rfl, ?_, ?_⟩ <;> simp [eigs]

/-- C6: for a wave speed bounded away from zero, `CFL` returns
`cfl_number · min_cell_size / wave_speed`, and doubling the wave speed
halves the returned step. -/
theorem CFL_min_over_speed (surfaces : List ℚ) (U_abs cfl : ℚ) (h : 0 < U_abs) :
    CFL surfaces U_abs cfl = cfl * minSurface surfaces / U_abs ∧
    CFL surfaces (2 * U_abs) cfl = CFL surfaces U_abs cfl / 2 := by
  refine ⟨rfl, ?_⟩
  rw [CFL, CFL, div_div]
  congr 1
  ring

/-- Witness for C6 on a two-cell mesh with unit wave speed. -/
theorem CFL_min_over_speed_witness :
    CFL [1, 3] 1 2 = 2 * minSurface [1, 3] / 1 ∧
    CFL [1, 3] (2 * 1) 2 = CFL [1, 3] 1 2 / 2 :=
  CFL_min_over_speed [1, 3] 1 2 one_pos

/-- C7 counterexample: with a degenerate mesh (zero minimum cell size)
but an ordinary wave speed of 1, `CFL` returns the ordinary finite value
`0.0`, not NaN (and the computation is total, so nothing is raised); an
infinite wave speed likewise yields the finite value `0.0`. -/
theorem CFL_zero_cell_size_finite :
    CFLfloat (.fin (1/2)) (.fin 0) (.fin 1) = .fin 0 ∧
    (CFLfloat (.fin (1/2)) (.fin 0) (.fin 1)).finite = true ∧
    CFLfloat (.fin (1/2)) (.fin 0) (.fin 1) ≠ FP.nan ∧
    CFLfloat (.fin (1/2)) (.fin 1) FP.pinf = .fin 0 := by
  have h1 : CFLfloat (.fin (1/2)) (.fin 0) (.fin 1) = .fin 0 := by
    norm_num [CFLfloat, fpMul, fpDiv]
  refine ⟨h1, by rw [h1]; rfl, by rw [h1]; exact fun hc => FP.noConfusion hc, ?_⟩
  norm_num [CFLfloat, fpMul, fpDiv]

/-- C7 amended: with any nonzero finite wave speed `CFL` returns the
ordinary finite value `cfl·dx/u` — in particular `0.0` on a degenerate
mesh — and it produces NaN exactly when the wave speed is NaN or both the
minimum cell size and the wave speed are zero; an infinite wave speed
yields `0.0`. -/
theorem CFL_float_cases (cfl dx u : ℚ) (h : u ≠ 0) :
    CFLfloat (.fin cfl) (.fin dx) (.fin u) = .fin (cfl * dx / u) ∧
    CFLfloat (.fin cfl) (.fin dx) FP.nan = FP.nan ∧
    CFLfloat (.fin cfl) (.fin 0) (.fin 0) = FP.nan ∧
    CFLfloat (.fin cfl) (.fin dx) FP.pinf = .fin 0 := by
  refine ⟨?_, rfl, ?_, rfl⟩
  · simp [CFLfloat, fpMul, fpDiv, h]
  · simp [CFLfloat, fpMul, fpDiv]

/-- Witness for the amended C7 at wave speed 1. -/
theorem CFL_float_cases_witness :
    CFLfloat (.fin 3) (.fin 5) (.fin 1) = .fin (3 * 5 / 1) ∧
    CFLfloat (.fin 3) (.fin 5) FP.nan = FP.nan ∧
    CFLfloat (.fin 3) (.fin 0) (.fin 0) = FP.nan ∧
    CFLfloat (.fin 3) (.fin 5) FP.pinf = .fin 0 :=
  CFL_float_cases 3 5 1 one_ne_zero

/-- C8: for the two-stage tableaux the sources construct (stored array
`[0, α]`), the trial state the code builds at each stage equals the
spec's rule `base − Δt·Σ_{j<k} a[k,j]·residual[j]` — the base state at
stage 0, `base − Δt·α·residual[0]` at stage 1 — the full stage-1
evaluation uses the cached stage-0 residual, the cache holds exactly the
lower-stage residual, and each stage's residual is accumulated exactly
once per step. -/
theorem rkdg_stage_trial_cached (resid : ℚ → ℚ) (base dt alpha : ℚ) :
    rkdg_trial base dt (butcher_a_s alpha) [] 0 = rk_spec_trial base dt [] [] 0 ∧
    (∀ k0 : ℚ, rkdg_trial base dt (butcher_a_s alpha) [k0] 1
      = rk_spec_trial base dt [alpha] [k0] 1) ∧
    (rkdgK resid base dt (butcher_a_s alpha) 1).fluxes
      = resid (base - dt * (alpha * resid base)) ∧
    (rkdgK resid base dt (butcher_a_s alpha) 1).ks
      = [(rkdgK resid base dt (butcher_a_s alpha) 0).fluxes] ∧
    (∀ step : ℕ, (rkdgK resid base dt (butcher_a_s alpha) step).evals = step + 1) := by
  refine ⟨?_, ?_, ?_, ?_, ?_⟩
  · simp [rkdg_trial, rkdg_a_slice, rk_spec_trial, butcher_a_s]
  · intro k0
    simp [rkdg_trial, rkdg_a_slice, rk_spec_trial, butcher_a_s]
  · simp [rkdgK, rkdg_trial, rkdg_a_slice, butcher_a_s]
  · simp [rkdgK]
  · intro step
    induction step with
    | zero => rfl
    | succ s ih => simp [rkdgK, ih]

/-- C9: the Rusanov flux rule is division-free and total; when both
normal velocities and both sound speeds vanish the wave-speed bound `σ`
is zero and the face flux degenerates to the pure central flux average
times the surface length. -/
theorem rusanov_sigma_zero_central (qL qR : EulerQ) (n : Normal) (S : ℚ) (k : Fin 4)
    (hL : compute_U_norm qL n = 0) (hR : compute_U_norm qR n = 0)
    (hcL : qL.c = 0) (hcR : qR.c = 0) :
    sigmaOf qL qR n = 0 ∧
    (rusanovF qL qR n S).get_conservative.idx k
      = S * (0.5 * (fluxDotN qL n k + fluxDotN qR n k)) := by
  have hs : sigmaOf qL qR n = 0 := by
    simp [sigmaOf, hL, hR, hcL, hcR, compute_sigma]
  refine ⟨hs, ?_⟩
  rw [rusanovF_cons_idx, faceFlux, hs]
  simp only [centralFlux, fluxDotN]
  ring

/-- Witness for C9 at two concrete states at rest with zero sound speed. -/
theorem rusanov_sigma_zero_central_witness :
    sigmaOf ⟨1, 2, 3, 4, 5, 0, 0, 6, 0⟩ ⟨7, 8, 9, 10, 11, 0, 0, 12, 0⟩ ⟨1, 0⟩ = 0 ∧
    (rusanovF ⟨1, 2, 3, 4, 5, 0, 0, 6, 0⟩
        ⟨7, 8, 9, 10, 11, 0, 0, 12, 0⟩ ⟨1, 0⟩ 2).get_conservative.idx 1
      = 2 * (0.5 * (fluxDotN ⟨1, 2, 3, 4, 5, 0, 0, 6, 0⟩ ⟨1, 0⟩ 1
          + fluxDotN ⟨7, 8, 9, 10, 11, 0, 0, 12, 0⟩ ⟨1, 0⟩ 1)) :=
  rusanov_sigma_zero_central ⟨1, 2, 3, 4, 5, 0, 0, 6, 0⟩ ⟨7, 8, 9, 10, 11, 0, 0, 12, 0⟩
    ⟨1, 0⟩ 2 1 (by simp [compute_U_norm]) (by simp [compute_U_norm]) rfl rfl

/-- C10: the state returned by the Rusanov flux rule has every
non-conservative field — internal energy, velocity components, pressure
and sound speed — equal to zero: the output is zero-initialized and only
its conservative sub-range is written. -/
theorem rusanovF_nonconservative_zero (qL qR : EulerQ) (n : Normal) (S : ℚ) :
    (rusanovF qL qR n S).rhoe = 0 ∧ (rusanovF qL qR n S).U = 0 ∧
    (rusanovF qL qR n S).V = 0 ∧ (rusanovF qL qR n S).p = 0 ∧
    (rusanovF qL qR n S).c = 0 :=
  ⟨rfl, rfl, rfl, rfl, rfl⟩

end Josie
